import Mathlib

/-!
Shallow embedding of the OBJ mesh loader from src/main.cpp
(functions fix_obj_index, load_obj and its local lambda parse_tok).

Modelling choices:
* The input stream is given as the list of its lines, each a list of
  characters (std::getline splits the stream into lines).
* C++ float values are modelled as exact rationals: every numeric field the
  format admits (decimal, optionally signed, optionally fractional) denotes a
  rational, and the loader only moves parsed values around, never computes
  with them, so rounding plays no role in any property considered here.
* Fallible C++ behaviour is modelled with Except:
  - std::stoi throws std::invalid_argument when the string holds no digits;
    there is no try/catch in main.cpp, so the exception escapes load_obj and
    terminates the program.  This is the invalidArgument outcome.
    (std::out_of_range for values beyond int is not modelled; no input in
    this development comes near the int range.)
  - std::vector::operator[] with an index beyond size() is undefined
    behaviour; we model any such access as the outOfBounds outcome.
* Machine int arithmetic in fix_obj_index is exact here (Int); the C++ code
  casts size_t counts to int, which is faithful for any realistic table.
-/

/-- The default-locale whitespace set used by std::isspace and by
istringstream token extraction. -/
def isSpaceChar (c : Char) : Bool :=
  c = ' ' || c = '\t' || c = '\n' || c = '\x0b' || c = '\x0c' || c = '\r'

/-- Value of a list of decimal digit characters. -/
def digitsToNat (ds : List Char) : Nat :=
  ds.foldl (fun a c => a * 10 + (c.toNat - '0'.toNat)) 0

/-- The two ways the C++ loader can fail to return normally:
an uncaught std::invalid_argument thrown by std::stoi, or undefined
behaviour from an out-of-range std::vector subscript. -/
inductive LoadErr where
  | invalidArgument
  | outOfBounds
deriving DecidableEq

deriving instance DecidableEq for Except

/-- std::stoi semantics (base 10): skip leading whitespace, an optional
sign, then at least one digit; conversion stops at the first non-digit.
With no digits it throws std::invalid_argument. -/
def stoi (cs : List Char) : Except LoadErr Int :=
  let s := cs.dropWhile isSpaceChar
  let sgn : Int := match s with
    | '-' :: _ => -1
    | _ => 1
  let s2 : List Char := match s with
    | '-' :: r => r
    | '+' :: r => r
    | _ => s
  let ds := s2.takeWhile Char.isDigit
  if ds = [] then .error .invalidArgument
  else .ok (sgn * (digitsToNat ds : Int))

/-- Stream extraction of one float (istringstream operator>>): skip leading
whitespace, then read an optional sign and a decimal mantissa with optional
fractional part, greedily; fail when no digit is read.  Returns the value
and the unconsumed remainder of the stream.  (Exponent forms do not occur
in the format as specified: numeric fields are decimal, optionally signed,
optionally fractional.) -/
def extractFloat (cs : List Char) : Option (Rat × List Char) :=
  let s := cs.dropWhile isSpaceChar
  let sgn : Int := match s with
    | '-' :: _ => -1
    | _ => 1
  let s1 : List Char := match s with
    | '-' :: r => r
    | '+' :: r => r
    | _ => s
  let ip := s1.takeWhile Char.isDigit
  let r1 := s1.dropWhile Char.isDigit
  match r1 with
  | '.' :: r2 =>
    let fp := r2.takeWhile Char.isDigit
    let r3 := r2.dropWhile Char.isDigit
    if ip = [] ∧ fp = [] then none
    else some
      (mkRat (sgn * ((digitsToNat ip * 10 ^ fp.length + digitsToNat fp : Nat) : Int))
        (10 ^ fp.length), r3)
  | _ =>
    if ip = [] then none
    else some (mkRat (sgn * (digitsToNat ip : Int)) 1, r1)

/-- Chained extraction iss >> x >> y >> z of three floats; once one
extraction fails the whole chain fails and nothing is appended. -/
def extract3Floats (cs : List Char) : Option (Rat × Rat × Rat) := do
  let (x, r1) ← extractFloat cs
  let (y, r2) ← extractFloat r1
  let (z, _) ← extractFloat r2
  pure (x, y, z)

/-- Index of the first occurrence of a character in a list, when present. -/
def findCharIdx (c : Char) : List Char → Option Nat
  | [] => none
  | a :: as => if a = c then some 0 else (findCharIdx c as).map (· + 1)

/-- std::string::find(c, pos): index of the first occurrence of c at or
after position pos, or none (npos). -/
def strFind (t : List Char) (c : Char) (pos : Nat) : Option Nat :=
  (findCharIdx c (t.drop pos)).map (· + pos)

/-- Direct translation of fix_obj_index from main.cpp: OBJ indices are
1..count (positive) or -1..-count (negative, relative to the end); the
function returns a 0-based index, or -1 for zero. -/
def fix_obj_index (idx count : Int) : Int :=
  if idx > 0 then idx - 1
  else if idx < 0 then count + idx
  else -1

/-- The three growable buffers local to one load_obj call: raw positions,
raw normals (flat xyzxyz...), and the flat interleaved output. -/
structure LoadState where
  verts : List Rat
  norms : List Rat
  out : List Rat
deriving DecidableEq

/-- Translation of the parse_tok lambda in load_obj: split a face corner
token at its slashes, std::stoi the position field and, when a third field
exists and is nonempty, the normal field; then resolve both against the
current table sizes.  Returns (vi, ni), each 0-based, ni = -1 if missing. -/
def parse_tok (verts norms : List Rat) (t : List Char) : Except LoadErr (Int × Int) := do
  let vn : Int × Int ←
    match strFind t '/' 0 with
    | none => (stoi t).map (fun v => (v, 0))
    | some i1 => do
      let v ← stoi (t.take i1)
      match strFind t '/' (i1 + 1) with
      | some i2 =>
        if i2 + 1 < t.length then
          let vn_part := t.drop (i2 + 1)
          if vn_part ≠ [] then do
            let n ← stoi vn_part
            pure (v, n)
          else pure (v, 0)
        else pure (v, 0)
      | none => pure (v, 0)
  let vcount : Int := ((verts.length / 3 : Nat) : Int)
  let ncount : Int := ((norms.length / 3 : Nat) : Int)
  pure (fix_obj_index vn.1 vcount,
        if vn.2 ≠ 0 then fix_obj_index vn.2 ncount else -1)

/-- The six floats pushed for one triangle corner when the position reads
are in bounds: the position triple at vi, then the normal triple at ni when
ni is nonnegative and its reads stay inside norms, else zeros. -/
def cornerVals (verts norms : List Rat) (vi : Nat) (ni : Int) : List Rat :=
  [verts.getD (vi * 3) 0, verts.getD (vi * 3 + 1) 0, verts.getD (vi * 3 + 2) 0]
    ++ (if 0 ≤ ni ∧ ni * 3 + 2 < (norms.length : Int) then
          [norms.getD (ni.toNat * 3) 0, norms.getD (ni.toNat * 3 + 1) 0,
           norms.getD (ni.toNat * 3 + 2) 0]
        else [0, 0, 0])

/-- Emission of one triangle corner (one iteration of the k loop in
load_obj): the three position reads verts[vo..vo+2] are unguarded in the
C++ code, so an out-of-range vi is undefined behaviour, modelled as the
outOfBounds outcome; the normal reads are guarded and fall back to zeros. -/
def emitCorner (verts norms : List Rat) (vi : Nat) (ni : Int) : Except LoadErr (List Rat) :=
  if vi * 3 + 2 < verts.length then .ok (cornerVals verts norms vi ni)
  else .error .outOfBounds

/-- Adjacent pairs of a list: the (face[i], face[i+1]) pairs visited by the
fan loop for i = 1 .. size-2 are exactly adjPairs of the tail of face. -/
def adjPairs {α : Type} : List α → List (α × α)
  | a :: b :: rest => (a, b) :: adjPairs (b :: rest)
  | _ => []

/-- The fan-triangulation loop of load_obj over the corner-token pairs
(face[i], face[i+1]): parse both corners (stoi may throw), skip the
triangle when either resolved position index is negative, otherwise emit
the three corners (anchor, i, i+1) onto the output. -/
def facePairsLoop (verts norms : List Rat) (v0i n0i : Int) :
    List (List Char × List Char) → List Rat → Except LoadErr (List Rat)
  | [], out => .ok out
  | (t1, t2) :: rest, out => do
    let r1 ← parse_tok verts norms t1
    let r2 ← parse_tok verts norms t2
    if r1.1 < 0 ∨ r2.1 < 0 then
      facePairsLoop verts norms v0i n0i rest out
    else do
      let c0 ← emitCorner verts norms v0i.toNat n0i
      let c1 ← emitCorner verts norms r1.1.toNat r1.2
      let c2 ← emitCorner verts norms r2.1.toNat r2.2
      facePairsLoop verts norms v0i n0i rest (out ++ c0 ++ c1 ++ c2)

/-- The f branch of load_obj: a face with fewer than 3 corner tokens is
skipped; otherwise parse the anchor corner, drop the whole face when its
resolved position index is negative, else run the fan loop. -/
def processFace (verts norms : List Rat) (out : List Rat) (fs : List (List Char)) :
    Except LoadErr (List Rat) :=
  if fs.length < 3 then .ok out
  else
    match fs with
    | [] => .ok out
    | t0 :: rest => do
      let r0 ← parse_tok verts norms t0
      if r0.1 < 0 then pure out
      else facePairsLoop verts norms r0.1 r0.2 (adjPairs rest) out

/-- Whitespace tokenization of the remainder of a line, as produced by
repeated iss >> tok (fuel-indexed; the fuel in wsTokens always suffices). -/
def wsTokensAux : Nat → List Char → List (List Char)
  | 0, _ => []
  | fuel + 1, cs =>
    match cs.dropWhile isSpaceChar with
    | [] => []
    | c :: rest =>
      ((c :: rest).takeWhile (fun d => !isSpaceChar d)) ::
        wsTokensAux fuel ((c :: rest).dropWhile (fun d => !isSpaceChar d))

/-- All whitespace-delimited tokens of a character sequence. -/
def wsTokens (cs : List Char) : List (List Char) :=
  wsTokensAux (cs.length + 1) cs

/-- First token of a line together with the unconsumed remainder of the
stream (iss >> type): skip whitespace, then take the maximal run of
non-whitespace characters. -/
def tokenSplit (cs : List Char) : List Char × List Char :=
  let ws := cs.dropWhile isSpaceChar
  (ws.takeWhile (fun c => !isSpaceChar c), ws.dropWhile (fun c => !isSpaceChar c))

/-- The v branch of load_obj: if three floats can be extracted from the
rest of the line they are appended to verts, otherwise nothing is. -/
def vStep (st : LoadState) (rest : List Char) : LoadState :=
  match extract3Floats rest with
  | some (x, y, z) => ⟨st.verts ++ [x, y, z], st.norms, st.out⟩
  | none => st

/-- The vn branch of load_obj, same shape as the v branch but appending to
norms. -/
def vnStep (st : LoadState) (rest : List Char) : LoadState :=
  match extract3Floats rest with
  | some (x, y, z) => ⟨st.verts, st.norms ++ [x, y, z], st.out⟩
  | none => st

/-- One iteration of the getline loop in load_obj: skip the line when it is
empty or starts with the comment marker (before or after leading
whitespace); otherwise dispatch on its first token. -/
def processLine (st : LoadState) (l : List Char) : Except LoadErr LoadState :=
  if l = [] ∨ l.head? = some '#' then .ok st
  else
    let tr := l.dropWhile isSpaceChar
    if tr = [] ∨ tr.head? = some '#' then .ok st
    else
      let ty := (tokenSplit tr).1
      let rest := (tokenSplit tr).2
      if ty = ['v'] then .ok (vStep st rest)
      else if ty = ['v', 'n'] then .ok (vnStep st rest)
      else if ty = ['f'] then
        (processFace st.verts st.norms st.out (wsTokens rest)).map
          (fun o => ⟨st.verts, st.norms, o⟩)
      else .ok st

/-- The getline loop of load_obj over the whole stream; an exception or
undefined behaviour on any line aborts the load. -/
def runLines : LoadState → List (List Char) → Except LoadErr LoadState
  | st, [] => .ok st
  | st, l :: ls =>
    match processLine st l with
    | .error e => .error e
    | .ok st2 => runLines st2 ls

/-- load_obj from main.cpp on an already-opened stream, given as its list
of lines: the flat interleaved px py pz nx ny nz output. -/
def load_obj (lines : List (List Char)) : Except LoadErr (List Rat) :=
  (runLines ⟨[], [], []⟩ lines).map LoadState.out

/-- A line the loader skips before tokenization: blank (empty or all
whitespace) or with the comment marker as its first non-whitespace
character.  This is exactly the union of the two skip tests in the
getline loop. -/
def isSkippable (l : List Char) : Bool :=
  match l.dropWhile isSpaceChar with
  | [] => true
  | c :: _ => c = '#'

/-- Resolution of every corner token of a face in order; the hypothesis
form used to say all corners of a face parse without an exception. -/
def resolveAll (verts norms : List Rat) : List (List Char) → Except LoadErr (List (Int × Int))
  | [] => .ok []
  | t :: ts => do
    let r ← parse_tok verts norms t
    let rs ← resolveAll verts norms ts
    pure (r :: rs)

/-- Shape of one emitted triangle: three vertex records of six scalars
each, concatenated. -/
def TriShape (t : List Rat) : Prop :=
  ∃ a b c : List Rat, t = a ++ b ++ c ∧ a.length = 6 ∧ b.length = 6 ∧ c.length = 6

/-! Helper lemmas about character search and the corner-token grammar. -/

theorem findCharIdx_of_not_mem {c : Char} {l : List Char} (h : c ∉ l) :
    findCharIdx c l = none := by
  induction l with
  | nil => rfl
  | cons a as ih =>
    simp only [List.mem_cons, not_or] at h
    have hne : ¬ a = c := fun hac => h.1 hac.symm
    simp only [findCharIdx, if_neg hne, ih h.2, Option.map_none']

theorem findCharIdx_append_cons {c : Char} {P rest : List Char} (h : c ∉ P) :
    findCharIdx c (P ++ c :: rest) = some P.length := by
  induction P with
  | nil => simp [findCharIdx]
  | cons a as ih =>
    simp only [List.mem_cons, not_or] at h
    have hne : ¬ a = c := fun hac => h.1 hac.symm
    simp only [List.cons_append, findCharIdx, List.append_eq, if_neg hne, ih h.2,
      Option.map_some', List.length_cons]

theorem strFind_zero (t : List Char) (c : Char) : strFind t c 0 = findCharIdx c t := by
  cases h : findCharIdx c t <;> simp [strFind, h]

/-- A corner token with no slash: the whole token is the position field and
the normal slot is absent. -/
theorem parse_tok_noslash (verts norms : List Rat) (t : List Char) (h : '/' ∉ t) :
    parse_tok verts norms t
      = (stoi t).map (fun v => (fix_obj_index v ((verts.length / 3 : Nat) : Int), -1)) := by
  simp only [parse_tok, strFind_zero, findCharIdx_of_not_mem h]
  cases hs : stoi t <;> simp [hs, Except.map, bind, Except.bind, pure, Except.pure]

/-- A corner token of shape P/T (position and texture only): the texture
field is never inspected and the normal slot is absent. -/
theorem parse_tok_pt (verts norms : List Rat) (P T : List Char)
    (hP : '/' ∉ P) (hT : '/' ∉ T) :
    parse_tok verts norms (P ++ '/' :: T)
      = (stoi P).map (fun v => (fix_obj_index v ((verts.length / 3 : Nat) : Int), -1)) := by
  have h1 : strFind (P ++ '/' :: T) '/' 0 = some P.length := by
    rw [strFind_zero, findCharIdx_append_cons hP]
  have hdrop : (P ++ '/' :: T).drop (P.length + 1) = T := by
    have hassoc : P ++ '/' :: T = (P ++ ['/']) ++ T := by simp
    rw [hassoc, List.drop_left' (by simp)]
  have h2 : strFind (P ++ '/' :: T) '/' (P.length + 1) = none := by
    rw [strFind, hdrop, findCharIdx_of_not_mem hT, Option.map_none']
  have htake : (P ++ '/' :: T).take P.length = P := List.take_left P ('/' :: T)
  simp only [parse_tok, h1, h2, htake]
  cases hs : stoi P <;> simp [hs, Except.map, bind, Except.bind, pure, Except.pure]

/-- A corner token of shape P/T/N: the position field is the part before
the first slash, the normal field the part after the second slash, and the
texture field between them is never inspected. -/
theorem parse_tok_ptn (verts norms : List Rat) (P T N : List Char)
    (hP : '/' ∉ P) (hT : '/' ∉ T) :
    parse_tok verts norms (P ++ '/' :: (T ++ '/' :: N))
      = (stoi P).bind (fun v =>
          (if N = [] then Except.ok 0 else stoi N).map (fun n =>
            (fix_obj_index v ((verts.length / 3 : Nat) : Int),
             if n ≠ 0 then fix_obj_index n ((norms.length / 3 : Nat) : Int) else -1))) := by
  have h1 : strFind (P ++ '/' :: (T ++ '/' :: N)) '/' 0 = some P.length := by
    rw [strFind_zero, findCharIdx_append_cons hP]
  have htake : (P ++ '/' :: (T ++ '/' :: N)).take P.length = P :=
    List.take_left P ('/' :: (T ++ '/' :: N))
  have hdrop1 : (P ++ '/' :: (T ++ '/' :: N)).drop (P.length + 1) = T ++ '/' :: N := by
    have hassoc : P ++ '/' :: (T ++ '/' :: N) = (P ++ ['/']) ++ (T ++ '/' :: N) := by simp
    rw [hassoc, List.drop_left' (by simp)]
  have h2 : strFind (P ++ '/' :: (T ++ '/' :: N)) '/' (P.length + 1)
      = some (T.length + (P.length + 1)) := by
    rw [strFind, hdrop1, findCharIdx_append_cons hT, Option.map_some']
  have hlen : (P ++ '/' :: (T ++ '/' :: N)).length = P.length + T.length + N.length + 2 := by
    simp only [List.length_append, List.length_cons]
    omega
  have hpre : (P ++ '/' :: (T ++ ['/'])).length = T.length + (P.length + 1) + 1 := by
    simp only [List.length_append, List.length_cons, List.length_nil]
    omega
  have hdrop2 : (P ++ '/' :: (T ++ '/' :: N)).drop (T.length + (P.length + 1) + 1) = N := by
    have hassoc : P ++ '/' :: (T ++ '/' :: N) = (P ++ '/' :: (T ++ ['/'])) ++ N := by simp
    rw [hassoc, List.drop_left' hpre]
  by_cases hN : N = []
  · subst hN
    have hcond : ¬ (T.length + (P.length + 1) + 1
        < (P ++ '/' :: (T ++ '/' :: ([] : List Char))).length) := by
      rw [hlen]; simp only [List.length_nil]; omega
    simp only [parse_tok, h1, h2, htake, if_neg hcond, if_pos rfl]
    cases hs : stoi P <;>
      simp [hs, Except.map, bind, Except.bind, pure, Except.pure]
  · have hcond : T.length + (P.length + 1) + 1 < (P ++ '/' :: (T ++ '/' :: N)).length := by
      rw [hlen]
      have : N.length ≠ 0 := fun h0 => hN (List.length_eq_zero.mp h0)
      omega
    simp only [parse_tok, h1, h2, htake, if_pos hcond, hdrop2, if_neg hN]
    cases hs : stoi P
    · simp [hs, Except.map, bind, Except.bind, pure, Except.pure]
    · cases hn : stoi N <;>
        simp [hs, hn, hN, Except.map, bind, Except.bind, pure, Except.pure]

theorem cornerVals_length (verts norms : List Rat) (vi : Nat) (ni : Int) :
    (cornerVals verts norms vi ni).length = 6 := by
  unfold cornerVals
  by_cases h : 0 ≤ ni ∧ ni * 3 + 2 < (norms.length : Int) <;> simp [h]

theorem emitCorner_of_lt (verts norms : List Rat) (vi : Nat) (ni : Int)
    (h : vi * 3 + 2 < verts.length) :
    emitCorner verts norms vi ni = .ok (cornerVals verts norms vi ni) := by
  simp [emitCorner, h]

theorem emitCorner_ok_eq {verts norms : List Rat} {vi : Nat} {ni : Int} {c : List Rat}
    (h : emitCorner verts norms vi ni = .ok c) : c = cornerVals verts norms vi ni := by
  unfold emitCorner at h
  by_cases hb : vi * 3 + 2 < verts.length
  · rw [if_pos hb] at h
    exact (Except.ok.inj h).symm
  · rw [if_neg hb] at h
    exact absurd h (by simp)

theorem adjPairs_length {α : Type} (l : List α) : (adjPairs l).length = l.length - 1 := by
  induction l with
  | nil => rfl
  | cons a l ih =>
    cases l with
    | nil => rfl
    | cons b rest =>
      simp only [adjPairs, List.length_cons, ih]
      omega

theorem resolveAll_cons_ok {verts norms : List Rat} {t : List Char} {ts : List (List Char)}
    {rs : List (Int × Int)} (h : resolveAll verts norms (t :: ts) = .ok rs) :
    ∃ r rs2, parse_tok verts norms t = .ok r ∧ resolveAll verts norms ts = .ok rs2
      ∧ rs = r :: rs2 := by
  unfold resolveAll at h
  cases hp : parse_tok verts norms t with
  | error e => rw [hp] at h; simp [bind, Except.bind] at h
  | ok r =>
    rw [hp] at h
    cases hr : resolveAll verts norms ts with
    | error e => rw [hr] at h; simp [bind, Except.bind] at h
    | ok rs2 =>
      rw [hr] at h
      simp only [bind, Except.bind, pure, Except.pure, Except.ok.injEq] at h
      exact ⟨r, rs2, rfl, rfl, h.symm⟩

theorem resolveAll_ok_length {verts norms : List Rat} :
    ∀ {ts : List (List Char)} {rs : List (Int × Int)},
      resolveAll verts norms ts = .ok rs → rs.length = ts.length := by
  intro ts
  induction ts with
  | nil =>
    intro rs h
    unfold resolveAll at h
    simp only [Except.ok.injEq] at h
    rw [← h]
    rfl
  | cons t ts ih =>
    intro rs h
    obtain ⟨r, rs2, _, hr, rfl⟩ := resolveAll_cons_ok h
    simp [ih hr]

theorem facePairsLoop_all_valid (verts norms : List Rat) (r0 : Int × Int)
    (h0 : 0 ≤ r0.1 ∧ r0.1.toNat * 3 + 2 < verts.length) :
    ∀ (ts : List (List Char)) (rs : List (Int × Int)) (out : List Rat),
      resolveAll verts norms ts = .ok rs →
      (∀ r ∈ rs, 0 ≤ r.1 ∧ r.1.toNat * 3 + 2 < verts.length) →
      facePairsLoop verts norms r0.1 r0.2 (adjPairs ts) out
        = .ok (out ++ ((adjPairs rs).map (fun p =>
            cornerVals verts norms r0.1.toNat r0.2
              ++ cornerVals verts norms p.1.1.toNat p.1.2
              ++ cornerVals verts norms p.2.1.toNat p.2.2)).flatten) := by
  intro ts
  induction ts with
  | nil =>
    intro rs out h hv
    unfold resolveAll at h
    simp only [Except.ok.injEq] at h
    rw [← h]
    simp [adjPairs, facePairsLoop]
  | cons t1 ts ih =>
    intro rs out h hv
    obtain ⟨r1, rs1, hp1, hres1, rfl⟩ := resolveAll_cons_ok h
    cases ts with
    | nil =>
      unfold resolveAll at hres1
      simp only [Except.ok.injEq] at hres1
      rw [← hres1]
      simp [adjPairs, facePairsLoop]
    | cons t2 rest =>
      obtain ⟨r2, rs2, hp2, hres2, rfl⟩ := resolveAll_cons_ok hres1
      have hv1 := hv r1 (by simp)
      have hv2 := hv r2 (by simp)
      have hnneg : ¬ (r1.1 < 0 ∨ r2.1 < 0) := by
        push_neg
        exact ⟨hv1.1, hv2.1⟩
      have hv' : ∀ r ∈ r2 :: rs2, 0 ≤ r.1 ∧ r.1.toNat * 3 + 2 < verts.length := by
        intro r hr
        exact hv r (by simp [hr])
      have step := ih (r2 :: rs2)
        (out ++ cornerVals verts norms r0.1.toNat r0.2
             ++ cornerVals verts norms r1.1.toNat r1.2
             ++ cornerVals verts norms r2.1.toNat r2.2) hres1 hv'
      show facePairsLoop verts norms r0.1 r0.2 ((t1, t2) :: adjPairs (t2 :: rest)) out = _
      simp only [facePairsLoop, hp1, hp2, bind, Except.bind, if_neg hnneg,
        emitCorner_of_lt verts norms r0.1.toNat r0.2 h0.2,
        emitCorner_of_lt verts norms r1.1.toNat r1.2 hv1.2,
        emitCorner_of_lt verts norms r2.1.toNat r2.2 hv2.2]
      rw [step]
      simp only [adjPairs, List.map_cons, List.flatten_cons]
      simp [List.append_assoc]

theorem triShape_cornerVals (verts norms : List Rat) (a b c : Nat) (na nb nc : Int) :
    TriShape (cornerVals verts norms a na ++ cornerVals verts norms b nb
      ++ cornerVals verts norms c nc) :=
  ⟨cornerVals verts norms a na, cornerVals verts norms b nb, cornerVals verts norms c nc,
    rfl, cornerVals_length .., cornerVals_length .., cornerVals_length ..⟩

theorem facePairsLoop_shape (verts norms : List Rat) (v0i n0i : Int) :
    ∀ (ps : List (List Char × List Char)) (out res : List Rat),
      facePairsLoop verts norms v0i n0i ps out = .ok res →
      ∃ tris : List (List Rat), res = out ++ tris.flatten ∧ ∀ t ∈ tris, TriShape t := by
  intro ps
  induction ps with
  | nil =>
    intro out res h
    simp only [facePairsLoop, Except.ok.injEq] at h
    exact ⟨[], by simp [← h], by simp⟩
  | cons p rest ih =>
    intro out res h
    obtain ⟨t1, t2⟩ := p
    simp only [facePairsLoop] at h
    cases hp1 : parse_tok verts norms t1 with
    | error e => rw [hp1] at h; simp [bind, Except.bind] at h
    | ok r1 =>
      rw [hp1] at h
      cases hp2 : parse_tok verts norms t2 with
      | error e => rw [hp2] at h; simp [bind, Except.bind] at h
      | ok r2 =>
        rw [hp2] at h
        simp only [bind, Except.bind] at h
        by_cases hskip : r1.1 < 0 ∨ r2.1 < 0
        · rw [if_pos hskip] at h
          exact ih out res h
        · rw [if_neg hskip] at h
          cases he0 : emitCorner verts norms v0i.toNat n0i with
          | error e => rw [he0] at h; simp at h
          | ok c0 =>
            rw [he0] at h
            cases he1 : emitCorner verts norms r1.1.toNat r1.2 with
            | error e => rw [he1] at h; simp at h
            | ok c1 =>
              rw [he1] at h
              cases he2 : emitCorner verts norms r2.1.toNat r2.2 with
              | error e => rw [he2] at h; simp at h
              | ok c2 =>
                rw [he2] at h
                simp only [] at h
                obtain ⟨tris, htr, hsh⟩ := ih _ res h
                refine ⟨(c0 ++ c1 ++ c2) :: tris, ?_, ?_⟩
                · rw [htr]
                  simp [List.append_assoc]
                · intro t ht
                  rcases List.mem_cons.mp ht with rfl | ht2
                  · rw [emitCorner_ok_eq he0, emitCorner_ok_eq he1, emitCorner_ok_eq he2]
                    exact triShape_cornerVals ..
                  · exact hsh t ht2

theorem processFace_shape {verts norms : List Rat} {out : List Rat}
    {fs : List (List Char)} {res : List Rat}
    (h : processFace verts norms out fs = .ok res) :
    ∃ tris : List (List Rat), res = out ++ tris.flatten ∧ ∀ t ∈ tris, TriShape t := by
  unfold processFace at h
  by_cases hlen : fs.length < 3
  · rw [if_pos hlen] at h
    simp only [Except.ok.injEq] at h
    exact ⟨[], by simp [← h], by simp⟩
  · rw [if_neg hlen] at h
    cases fs with
    | nil =>
      simp only [Except.ok.injEq] at h
      exact ⟨[], by simp [← h], by simp⟩
    | cons t0 rest =>
      have h2 : (do
          let r0 ← parse_tok verts norms t0
          if r0.1 < 0 then pure out
          else facePairsLoop verts norms r0.1 r0.2 (adjPairs rest) out)
          = Except.ok res := h
      clear h
      cases hp : parse_tok verts norms t0 with
      | error e => rw [hp] at h2; simp [bind, Except.bind] at h2
      | ok r0 =>
        rw [hp] at h2
        simp only [bind, Except.bind] at h2
        by_cases hneg : r0.1 < 0
        · rw [if_pos hneg] at h2
          simp only [pure, Except.pure, Except.ok.injEq] at h2
          exact ⟨[], by simp [← h2], by simp⟩
        · rw [if_neg hneg] at h2
          exact facePairsLoop_shape verts norms r0.1 r0.2 (adjPairs rest) out res h2

theorem processLine_eq (st : LoadState) (l : List Char) :
    processLine st l
      = (if l = [] ∨ l.head? = some '#' then Except.ok st
         else if List.dropWhile isSpaceChar l = []
             ∨ (List.dropWhile isSpaceChar l).head? = some '#' then Except.ok st
         else if (tokenSplit (List.dropWhile isSpaceChar l)).1 = ['v'] then
           Except.ok (vStep st (tokenSplit (List.dropWhile isSpaceChar l)).2)
         else if (tokenSplit (List.dropWhile isSpaceChar l)).1 = ['v', 'n'] then
           Except.ok (vnStep st (tokenSplit (List.dropWhile isSpaceChar l)).2)
         else if (tokenSplit (List.dropWhile isSpaceChar l)).1 = ['f'] then
           (processFace st.verts st.norms st.out
             (wsTokens (tokenSplit (List.dropWhile isSpaceChar l)).2)).map
               (fun o => ⟨st.verts, st.norms, o⟩)
         else Except.ok st) := rfl

theorem processLine_skip {st : LoadState} {l : List Char} (h : isSkippable l = true) :
    processLine st l = .ok st := by
  rw [processLine_eq]
  by_cases h1 : l = [] ∨ l.head? = some '#'
  · rw [if_pos h1]
  · rw [if_neg h1]
    unfold isSkippable at h
    cases hd : List.dropWhile isSpaceChar l with
    | nil => simp
    | cons c cs =>
      rw [hd] at h
      simp only [decide_eq_true_eq] at h
      simp [h]

theorem runLines_filter :
    ∀ (ls : List (List Char)) (st : LoadState),
      runLines st (ls.filter (fun l => !isSkippable l)) = runLines st ls := by
  intro ls
  induction ls with
  | nil => intro st; rfl
  | cons l ls ih =>
    intro st
    by_cases hs : isSkippable l = true
    · rw [List.filter_cons_of_neg (by simp [hs])]
      have hr : runLines st (l :: ls) = runLines st ls := by
        simp only [runLines, processLine_skip hs]
      rw [hr]
      exact ih st
    · have hfalse : isSkippable l = false := by
        cases hb : isSkippable l
        · rfl
        · exact absurd hb hs
      rw [List.filter_cons_of_pos (by simp [hfalse])]
      simp only [runLines]
      cases hp : processLine st l with
      | error e => rfl
      | ok st2 => exact ih st2

theorem processLine_step {st st' : LoadState} {l : List Char}
    (h : processLine st l = .ok st') :
    ((st'.verts = st.verts ∨ ∃ x y z, st'.verts = st.verts ++ [x, y, z]) ∧
     (st'.norms = st.norms ∨ ∃ x y z, st'.norms = st.norms ++ [x, y, z])) ∧
    ∃ tris : List (List Rat), st'.out = st.out ++ tris.flatten ∧ ∀ t ∈ tris, TriShape t := by
  rw [processLine_eq] at h
  by_cases h1 : l = [] ∨ l.head? = some '#'
  · rw [if_pos h1] at h
    simp only [Except.ok.injEq] at h
    subst h
    exact ⟨⟨Or.inl rfl, Or.inl rfl⟩, [], by simp, by simp⟩
  · rw [if_neg h1] at h
    by_cases hA : List.dropWhile isSpaceChar l = []
        ∨ (List.dropWhile isSpaceChar l).head? = some '#'
    · rw [if_pos hA] at h
      simp only [Except.ok.injEq] at h
      subst h
      exact ⟨⟨Or.inl rfl, Or.inl rfl⟩, [], by simp, by simp⟩
    · rw [if_neg hA] at h
      by_cases hv : (tokenSplit (List.dropWhile isSpaceChar l)).1 = ['v']
      · rw [if_pos hv] at h
        simp only [Except.ok.injEq] at h
        subst h
        unfold vStep
        cases he : extract3Floats (tokenSplit (List.dropWhile isSpaceChar l)).2 with
        | none => exact ⟨⟨Or.inl rfl, Or.inl rfl⟩, [], by simp, by simp⟩
        | some xyz =>
          obtain ⟨x, y, z⟩ := xyz
          exact ⟨⟨Or.inr ⟨x, y, z, rfl⟩, Or.inl rfl⟩, [], by simp, by simp⟩
      · rw [if_neg hv] at h
        by_cases hvn : (tokenSplit (List.dropWhile isSpaceChar l)).1 = ['v', 'n']
        · rw [if_pos hvn] at h
          simp only [Except.ok.injEq] at h
          subst h
          unfold vnStep
          cases he : extract3Floats (tokenSplit (List.dropWhile isSpaceChar l)).2 with
          | none => exact ⟨⟨Or.inl rfl, Or.inl rfl⟩, [], by simp, by simp⟩
          | some xyz =>
            obtain ⟨x, y, z⟩ := xyz
            exact ⟨⟨Or.inl rfl, Or.inr ⟨x, y, z, rfl⟩⟩, [], by simp, by simp⟩
        · rw [if_neg hvn] at h
          by_cases hf : (tokenSplit (List.dropWhile isSpaceChar l)).1 = ['f']
          · rw [if_pos hf] at h
            cases hface : processFace st.verts st.norms st.out
                (wsTokens (tokenSplit (List.dropWhile isSpaceChar l)).2) with
            | error e => rw [hface] at h; simp [Except.map] at h
            | ok o =>
              rw [hface] at h
              simp only [Except.map, Except.ok.injEq] at h
              subst h
              obtain ⟨tris, htr, hsh⟩ := processFace_shape hface
              exact ⟨⟨Or.inl rfl, Or.inl rfl⟩, tris, htr, hsh⟩
          · rw [if_neg hf] at h
            simp only [Except.ok.injEq] at h
            subst h
            exact ⟨⟨Or.inl rfl, Or.inl rfl⟩, [], by simp, by simp⟩

theorem runLines_shape :
    ∀ (ls : List (List Char)) (st st' : LoadState),
      runLines st ls = .ok st' →
      ∃ tris : List (List Rat), st'.out = st.out ++ tris.flatten ∧ ∀ t ∈ tris, TriShape t := by
  intro ls
  induction ls with
  | nil =>
    intro st st' h
    simp only [runLines, Except.ok.injEq] at h
    subst h
    exact ⟨[], by simp, by simp⟩
  | cons l ls ih =>
    intro st st' h
    simp only [runLines] at h
    cases hp : processLine st l with
    | error e => rw [hp] at h; exact absurd h (by simp)
    | ok st2 =>
      rw [hp] at h
      obtain ⟨t1, h1, s1⟩ := (processLine_step hp).2
      obtain ⟨t2, h2, s2⟩ := ih st2 st' h
      refine ⟨t1 ++ t2, ?_, ?_⟩
      · rw [h2, h1]
        simp [List.flatten_append, List.append_assoc]
      · intro t ht
        rcases List.mem_append.mp ht with ht1 | ht2
        · exact s1 t ht1
        · exact s2 t ht2

theorem runLines_mod3 :
    ∀ (ls : List (List Char)) (st st' : LoadState),
      runLines st ls = .ok st' →
      st.verts.length % 3 = 0 → st.norms.length % 3 = 0 →
      st'.verts.length % 3 = 0 ∧ st'.norms.length % 3 = 0 := by
  intro ls
  induction ls with
  | nil =>
    intro st st' h hv hn
    simp only [runLines, Except.ok.injEq] at h
    subst h
    exact ⟨hv, hn⟩
  | cons l ls ih =>
    intro st st' h hv hn
    simp only [runLines] at h
    cases hp : processLine st l with
    | error e => rw [hp] at h; exact absurd h (by simp)
    | ok st2 =>
      rw [hp] at h
      obtain ⟨hverts, hnorms⟩ := (processLine_step hp).1
      have hv2 : st2.verts.length % 3 = 0 := by
        rcases hverts with he | ⟨x, y, z, he⟩
        · rw [he]; exact hv
        · rw [he, List.length_append, List.length_cons, List.length_cons,
            List.length_cons, List.length_nil]
          omega
      have hn2 : st2.norms.length % 3 = 0 := by
        rcases hnorms with he | ⟨x, y, z, he⟩
        · rw [he]; exact hn
        · rw [he, List.length_append, List.length_cons, List.length_cons,
            List.length_cons, List.length_nil]
          omega
      exact ih st2 st' h hv2 hn2

theorem triShape_flatten_length :
    ∀ tris : List (List Rat), (∀ t ∈ tris, TriShape t) →
      tris.flatten.length = 18 * tris.length := by
  intro tris
  induction tris with
  | nil => intro _; rfl
  | cons t ts ih =>
    intro hsh
    obtain ⟨a, b, c, heq, ha, hb, hc⟩ := hsh t (by simp)
    simp only [List.flatten_cons, List.length_append, List.length_cons,
      ih (fun u hu => hsh u (by simp [hu])), heq, ha, hb, hc]
    omega

/-! Theorems for the specification claims. -/

/-- C1: the claim says the loader never throws or aborts on malformed lines
or malformed face corner tokens.  A v line with unreadable floats is indeed
skipped (first conjunct), but a face corner token holding no digits makes
std::stoi throw std::invalid_argument, and load_obj has no handler, so the
load aborts instead of skipping the corner (second conjunct). -/
theorem c1_malformed_corner_aborts :
    load_obj ["v a b c".data] = .ok [] ∧
    load_obj ["v 0 0 0".data, "v 1 0 0".data, "v 0 1 0".data, "f a 1 2".data]
      = .error .invalidArgument := by
  constructor <;> decide

/-- C2: the claim says a corner whose resolved position index falls outside
[0, PositionTable.length) is dropped.  The code only tests the lower bound:
a negative resolution is dropped (first conjunct), but corner 4 over three
declared positions resolves to index 3 and the loader reads the position
table out of bounds, which is undefined behaviour, instead of dropping the
record (second conjunct). -/
theorem c2_oob_position_not_dropped :
    load_obj ["v 0 0 0".data, "v 1 0 0".data, "v 0 1 0".data, "f -9 1 2".data]
      = .ok [] ∧
    load_obj ["v 0 0 0".data, "v 1 0 0".data, "v 0 1 0".data, "f 1 2 4".data]
      = .error .outOfBounds := by
  constructor <;> decide

/-- C3: the claim says the face line f 99 1 2 over three positions emits
nothing.  Instead 99 resolves to 98, passes the negative-only validity test,
and the anchor corner emission reads the position table out of bounds
(first conjunct).  The non-anchor skip behaviour holds for indices the code
does classify invalid: in f 1 -9 2 3 the (-9, 2) triangle is skipped while
the later (2, 3) triangle of the same fan is emitted (second conjunct). -/
theorem c3_anchor_oob_not_dropped :
    load_obj ["v 0 0 0".data, "v 1 0 0".data, "v 0 1 0".data, "f 99 1 2".data]
      = .error .outOfBounds ∧
    load_obj ["v 0 0 0".data, "v 1 0 0".data, "v 0 1 0".data, "f 1 -9 2 3".data]
      = .ok [0,0,0,0,0,0, 1,0,0,0,0,0, 0,1,0,0,0,0] := by
  constructor <;> decide

/-- C5: index resolution follows the signed convention against the running
table count: positive k resolves to k-1, negative k to count+k, zero to -1
(invalid for positions, and parse_tok maps a zero normal field to the
absent marker -1); consequently, after three position declarations,
f -3 -2 -1 loads the same output as f 1 2 3. -/
theorem c5_signed_index_resolution :
    (∀ idx count : Int,
        (0 < idx → fix_obj_index idx count = idx - 1) ∧
        (idx < 0 → fix_obj_index idx count = count + idx) ∧
        fix_obj_index 0 count = -1) ∧
    (∀ (verts norms : List Rat) (P N : List Char),
        '/' ∉ P → '/' ∉ N → N ≠ [] →
        parse_tok verts norms (P ++ '/' :: '/' :: N)
          = (stoi P).bind (fun p => (stoi N).map (fun n =>
              (fix_obj_index p ((verts.length / 3 : Nat) : Int),
               if n ≠ 0 then fix_obj_index n ((norms.length / 3 : Nat) : Int) else -1)))) ∧
    load_obj ["v 0 0 0".data, "v 1 0 0".data, "v 0 1 0".data, "f -3 -2 -1".data]
      = load_obj ["v 0 0 0".data, "v 1 0 0".data, "v 0 1 0".data, "f 1 2 3".data] := by
  refine ⟨?_, ?_, by decide⟩
  · intro idx count
    refine ⟨fun h => ?_, fun h => ?_, rfl⟩
    · unfold fix_obj_index
      rw [if_pos h]
    · unfold fix_obj_index
      rw [if_neg (by omega), if_pos h]
  · intro verts norms P N hP hN hNne
    have hform := parse_tok_ptn verts norms P [] N hP (by simp)
    rw [List.nil_append] at hform
    rw [hform]
    simp only [if_neg hNne]

/-- C5 witness: the three resolution rules and the token formula at
concrete inputs. -/
theorem c5_signed_index_resolution_witness :
    ((0 : Int) < 2 ∧ fix_obj_index 2 5 = 1) ∧
    ((-2 : Int) < 0 ∧ fix_obj_index (-2) 5 = 3) ∧
    fix_obj_index 0 5 = -1 ∧
    parse_tok [0, 0, 0] [] ("2".data ++ '/' :: '/' :: "0".data)
      = (stoi "2".data).bind (fun p => (stoi "0".data).map (fun n =>
          (fix_obj_index p ((([0, 0, 0] : List Rat).length / 3 : Nat) : Int),
           if n ≠ 0 then fix_obj_index n ((([] : List Rat).length / 3 : Nat) : Int)
           else -1))) :=
  ⟨⟨by decide, (c5_signed_index_resolution.1 2 5).1 (by decide)⟩,
   ⟨by decide, (c5_signed_index_resolution.1 (-2) 5).2.1 (by decide)⟩,
   (c5_signed_index_resolution.1 0 5).2.2,
   c5_signed_index_resolution.2.1 [0, 0, 0] [] "2".data "0".data
     (by decide) (by decide) (by decide)⟩

/-- C8: inserting blank lines or comment-marked lines anywhere in a stream
does not change the loaded output: loading a stream equals loading the
stream with all skippable lines removed. -/
theorem c8_comment_blank_invariance :
    ∀ lines : List (List Char),
      load_obj lines = load_obj (lines.filter (fun l => !isSkippable l)) := by
  intro lines
  unfold load_obj
  rw [runLines_filter]

/-- C10: the texture field of a P/T or P/T/N face corner token is never
inspected: replacing it by any other slash-free character sequence,
including the empty one, leaves the parsed corner unchanged, so a
malformed texture field never invalidates the corner. -/
theorem c10_texture_field_ignored :
    (∀ (verts norms : List Rat) (P T T2 : List Char),
        '/' ∉ P → '/' ∉ T → '/' ∉ T2 →
        parse_tok verts norms (P ++ '/' :: T) = parse_tok verts norms (P ++ '/' :: T2)) ∧
    (∀ (verts norms : List Rat) (P T T2 N : List Char),
        '/' ∉ P → '/' ∉ T → '/' ∉ T2 →
        parse_tok verts norms (P ++ '/' :: (T ++ '/' :: N))
          = parse_tok verts norms (P ++ '/' :: (T2 ++ '/' :: N))) := by
  constructor
  · intro verts norms P T T2 hP hT hT2
    rw [parse_tok_pt verts norms P T hP hT, parse_tok_pt verts norms P T2 hP hT2]
  · intro verts norms P T T2 N hP hT hT2
    rw [parse_tok_ptn verts norms P T N hP hT, parse_tok_ptn verts norms P T2 N hP hT2]

/-- C10 witness: swapping a numeric texture field for junk text or for the
empty field at concrete tokens. -/
theorem c10_texture_field_ignored_witness :
    ('/' ∉ ("1".data : List Char) ∧ '/' ∉ ("abc".data : List Char)
      ∧ '/' ∉ ("".data : List Char)) ∧
    parse_tok [0, 0, 0] [] ("1".data ++ '/' :: "abc".data)
      = parse_tok [0, 0, 0] [] ("1".data ++ '/' :: "".data) ∧
    parse_tok [0, 0, 0] [0, 0, 0] ("1".data ++ '/' :: ("abc".data ++ '/' :: "1".data))
      = parse_tok [0, 0, 0] [0, 0, 0] ("1".data ++ '/' :: ("".data ++ '/' :: "1".data)) :=
  ⟨⟨by decide, by decide, by decide⟩,
   c10_texture_field_ignored.1 [0, 0, 0] [] "1".data "abc".data "".data
     (by decide) (by decide) (by decide),
   c10_texture_field_ignored.2 [0, 0, 0] [0, 0, 0] "1".data "abc".data "".data "1".data
     (by decide) (by decide) (by decide)⟩

theorem processFace_cons (verts norms out : List Rat) (t0 : List Char)
    (rest : List (List Char)) (h : ¬ (t0 :: rest).length < 3) :
    processFace verts norms out (t0 :: rest)
      = (do
          let r0 ← parse_tok verts norms t0
          if r0.1 < 0 then pure out
          else facePairsLoop verts norms r0.1 r0.2 (adjPairs rest) out) := by
  unfold processFace
  rw [if_neg h]

/-- C4: a face of fewer than 3 corners is discarded (first conjunct); a
face of n corners whose corner tokens all resolve to valid in-range
position indices emits exactly the n-2 fan triangles (corner 0, corner i,
corner i+1) for i = 1 .. n-2, in that order with corners in that order
(second conjunct); over four positions, f 1 2 3 4 yields the two triangles
(1,2,3) then (1,3,4) (third conjunct). -/
theorem c4_fan_triangulation :
    (∀ (verts norms out : List Rat) (fs : List (List Char)),
        fs.length < 3 → processFace verts norms out fs = .ok out) ∧
    (∀ (verts norms out : List Rat) (t0 : List Char) (ftail : List (List Char))
        (r0 : Int × Int) (rtail : List (Int × Int)),
        resolveAll verts norms (t0 :: ftail) = .ok (r0 :: rtail) →
        2 ≤ ftail.length →
        (∀ r ∈ r0 :: rtail, 0 ≤ r.1 ∧ r.1.toNat * 3 + 2 < verts.length) →
        processFace verts norms out (t0 :: ftail)
          = .ok (out ++ ((adjPairs rtail).map (fun p =>
              cornerVals verts norms r0.1.toNat r0.2
                ++ cornerVals verts norms p.1.1.toNat p.1.2
                ++ cornerVals verts norms p.2.1.toNat p.2.2)).flatten)
          ∧ (adjPairs rtail).length = (t0 :: ftail).length - 2) ∧
    load_obj ["v 0 0 0".data, "v 1 0 0".data, "v 1 1 0".data, "v 0 1 0".data,
        "f 1 2 3 4".data]
      = .ok [0,0,0,0,0,0, 1,0,0,0,0,0, 1,1,0,0,0,0,
             0,0,0,0,0,0, 1,1,0,0,0,0, 0,1,0,0,0,0] := by
  refine ⟨?_, ?_, by decide⟩
  · intro verts norms out fs hlen
    unfold processFace
    rw [if_pos hlen]
  · intro verts norms out t0 ftail r0 rtail hres hlen hval
    obtain ⟨r0b, rtailb, hp0, hres1, heq⟩ := resolveAll_cons_ok hres
    injection heq with h1 h2
    subst h1
    subst h2
    have hbig : ¬ (t0 :: ftail).length < 3 := by
      simp only [List.length_cons]
      omega
    constructor
    · rw [processFace_cons verts norms out t0 ftail hbig]
      have h0 := hval r0 (by simp)
      have hnneg : ¬ r0.1 < 0 := Int.not_lt.mpr h0.1
      simp only [hp0, bind, Except.bind, if_neg hnneg]
      exact facePairsLoop_all_valid verts norms r0 h0 ftail rtail out hres1
        (fun r hr => hval r (by simp [hr]))
    · have hlenr : rtail.length = ftail.length := by
        have h2 := resolveAll_ok_length hres
        simp only [List.length_cons] at h2
        omega
      rw [adjPairs_length, hlenr]
      simp only [List.length_cons]
      omega

/-- C4 witness: a 1-corner face is discarded, and a concrete all-valid
triangle face emits its fan. -/
theorem c4_fan_triangulation_witness :
    ((["1".data] : List (List Char)).length < 3
      ∧ processFace [0, 0, 0] [] [] [["1".data].head!] = .ok []) ∧
    (resolveAll [0,0,0, 1,0,0, 0,1,0] [] ["1".data, "2".data, "3".data]
        = .ok [(0, -1), (1, -1), (2, -1)] ∧
     2 ≤ (["2".data, "3".data] : List (List Char)).length ∧
     (∀ r ∈ [((0 : Int), (-1 : Int)), (1, -1), (2, -1)],
        0 ≤ r.1 ∧ r.1.toNat * 3 + 2 < ([0,0,0, 1,0,0, 0,1,0] : List Rat).length) ∧
     processFace [0,0,0, 1,0,0, 0,1,0] [] [] ["1".data, "2".data, "3".data]
        = .ok ([] ++ ((adjPairs [((1 : Int), (-1 : Int)), (2, -1)]).map (fun p =>
            cornerVals [0,0,0, 1,0,0, 0,1,0] [] ((0 : Int), (-1 : Int)).1.toNat
                ((0 : Int), (-1 : Int)).2
              ++ cornerVals [0,0,0, 1,0,0, 0,1,0] [] p.1.1.toNat p.1.2
              ++ cornerVals [0,0,0, 1,0,0, 0,1,0] [] p.2.1.toNat p.2.2)).flatten)
      ∧ (adjPairs [((1 : Int), (-1 : Int)), (2, -1)]).length
          = (["1".data, "2".data, "3".data] : List (List Char)).length - 2) := by
  refine ⟨⟨by decide, ?_⟩, by decide, by decide, by decide, ?_⟩
  · exact c4_fan_triangulation.1 [0, 0, 0] [] [] _ (by decide)
  · exact c4_fan_triangulation.2.1 [0,0,0, 1,0,0, 0,1,0] [] []
      "1".data ["2".data, "3".data] ((0 : Int), (-1 : Int)) [(1, -1), (2, -1)]
      (by decide) (by decide) (by decide)

/-- C6 counterexample: in f 1/1 2/2 3 the second field of a two-field
corner token is a texture index, not a normal index, so the loader emits
normal (0,0,0) for the first two vertices as well; the claim predicts that
they carry the resolved normals (1,0,0) and (0,1,0), which is a different
output list. -/
theorem c6_normals_counterexample :
    load_obj ["v 0 0 0".data, "v 1 0 0".data, "v 0 1 0".data,
        "vn 1 0 0".data, "vn 0 1 0".data, "f 1/1 2/2 3".data]
      = .ok [0,0,0, 0,0,0, 1,0,0, 0,0,0, 0,1,0, 0,0,0] ∧
    ([0,0,0, 0,0,0, 1,0,0, 0,0,0, 0,1,0, 0,0,0] : List Rat)
      ≠ [0,0,0, 1,0,0, 1,0,0, 0,1,0, 0,1,0, 0,0,0] := by
  constructor <;> decide

/-- C6 amended: for every emitted vertex, when the corner normal index is
absent, zero (both mapped to -1 by parse_tok) or does not resolve within
the normal-table bounds, the normal triple of the vertex record is exactly
(0,0,0); otherwise it is the resolved normal triple.  The claim example
must use f 1//1 2//2 3: there the third vertex gets normal (0,0,0) while
the first two carry their resolved normals; in f 1/1 2/2 3 all three
normals are (0,0,0) because a P/T token carries no normal index. -/
theorem c6_normal_fallback :
    (∀ (verts norms : List Rat) (vi : Nat) (ni : Int),
        ¬ (0 ≤ ni ∧ ni * 3 + 2 < (norms.length : Int)) →
        (cornerVals verts norms vi ni).drop 3 = [0, 0, 0]) ∧
    (∀ (verts norms : List Rat) (vi : Nat) (ni : Int),
        0 ≤ ni → ni * 3 + 2 < (norms.length : Int) →
        (cornerVals verts norms vi ni).drop 3
          = [norms.getD (ni.toNat * 3) 0, norms.getD (ni.toNat * 3 + 1) 0,
             norms.getD (ni.toNat * 3 + 2) 0]) ∧
    load_obj ["v 0 0 0".data, "v 1 0 0".data, "v 0 1 0".data,
        "vn 1 0 0".data, "vn 0 1 0".data, "f 1//1 2//2 3".data]
      = .ok [0,0,0, 1,0,0, 1,0,0, 0,1,0, 0,1,0, 0,0,0] := by
  refine ⟨?_, ?_, by decide⟩
  · intro verts norms vi ni h
    unfold cornerVals
    rw [if_neg h]
    simp
  · intro verts norms vi ni h1 h2
    unfold cornerVals
    rw [if_pos ⟨h1, h2⟩]
    simp

/-- C6 witness: the fallback and the resolved branch of the amended rule
at concrete inputs. -/
theorem c6_normal_fallback_witness :
    (¬ (0 ≤ (-1 : Int) ∧ (-1 : Int) * 3 + 2 < (([1, 0, 0] : List Rat).length : Int))
      ∧ (cornerVals [0, 0, 0] [1, 0, 0] 0 (-1)).drop 3 = [0, 0, 0]) ∧
    (0 ≤ (0 : Int) ∧ (0 : Int) * 3 + 2 < (([1, 0, 0] : List Rat).length : Int)
      ∧ (cornerVals [0, 0, 0] [1, 0, 0] 0 0).drop 3
          = [([1, 0, 0] : List Rat).getD ((0 : Int).toNat * 3) 0,
             ([1, 0, 0] : List Rat).getD ((0 : Int).toNat * 3 + 1) 0,
             ([1, 0, 0] : List Rat).getD ((0 : Int).toNat * 3 + 2) 0]) :=
  ⟨⟨by decide, c6_normal_fallback.1 [0, 0, 0] [1, 0, 0] 0 (-1) (by decide)⟩,
   by decide, by decide,
   c6_normal_fallback.2.1 [0, 0, 0] [1, 0, 0] 0 0 (by decide) (by decide)⟩

/-- C7: a v or vn line appends exactly one 3-float tuple when three floats
can be extracted after the keyword and appends nothing otherwise (first
two conjuncts), hence the position and normal tables of any completed load
always hold a whole number of 3-float tuples (third conjunct). -/
theorem c7_whole_tuples :
    (∀ (st : LoadState) (rest : List Char),
        (extract3Floats rest = none → vStep st rest = st) ∧
        (∀ x y z : Rat, extract3Floats rest = some (x, y, z) →
          vStep st rest = ⟨st.verts ++ [x, y, z], st.norms, st.out⟩)) ∧
    (∀ (st : LoadState) (rest : List Char),
        (extract3Floats rest = none → vnStep st rest = st) ∧
        (∀ x y z : Rat, extract3Floats rest = some (x, y, z) →
          vnStep st rest = ⟨st.verts, st.norms ++ [x, y, z], st.out⟩)) ∧
    (∀ (lines : List (List Char)) (st2 : LoadState),
        runLines ⟨[], [], []⟩ lines = .ok st2 →
        st2.verts.length % 3 = 0 ∧ st2.norms.length % 3 = 0) := by
  refine ⟨?_, ?_, ?_⟩
  · intro st rest
    constructor
    · intro h
      unfold vStep
      rw [h]
    · intro x y z h
      unfold vStep
      rw [h]
  · intro st rest
    constructor
    · intro h
      unfold vnStep
      rw [h]
    · intro x y z h
      unfold vnStep
      rw [h]
  · intro lines st2 h
    exact runLines_mod3 lines ⟨[], [], []⟩ st2 h rfl rfl

/-- C7 witness: a line with two readable floats appends nothing, one with
three appends one tuple, and a completed run has 3-divisible tables. -/
theorem c7_whole_tuples_witness :
    (extract3Floats " 1 2".data = none
      ∧ vStep ⟨[], [], []⟩ " 1 2".data = ⟨[], [], []⟩) ∧
    (extract3Floats " 1 2 3".data = some (1, 2, 3)
      ∧ vStep ⟨[], [], []⟩ " 1 2 3".data
          = ⟨(⟨[], [], []⟩ : LoadState).verts ++ [1, 2, 3],
             (⟨[], [], []⟩ : LoadState).norms, (⟨[], [], []⟩ : LoadState).out⟩) ∧
    (runLines ⟨[], [], []⟩ ["v 1 2 3".data, "vn 0 0 1".data] = .ok ⟨[1, 2, 3], [0, 0, 1], []⟩
      ∧ (⟨[1, 2, 3], [0, 0, 1], []⟩ : LoadState).verts.length % 3 = 0
      ∧ (⟨[1, 2, 3], [0, 0, 1], []⟩ : LoadState).norms.length % 3 = 0) :=
  ⟨⟨by decide, (c7_whole_tuples.1 ⟨[], [], []⟩ " 1 2".data).1 (by decide)⟩,
   ⟨by decide, (c7_whole_tuples.1 ⟨[], [], []⟩ " 1 2 3".data).2 1 2 3 (by decide)⟩,
   ⟨by decide, c7_whole_tuples.2.2 ["v 1 2 3".data, "vn 0 0 1".data]
      ⟨[1, 2, 3], [0, 0, 1], []⟩ (by decide)⟩⟩

/-- C9: whenever the loader returns, its output is a concatenation of
whole triangles, each of which is three whole 6-scalar vertex records, so
the total length is 18 times the number of emitted triangles (hence a
multiple of 18, and never a partial vertex record); and empty input gives
empty output. -/
theorem c9_output_shape :
    (∀ (lines : List (List Char)) (out : List Rat),
        load_obj lines = .ok out →
        ∃ tris : List (List Rat),
          out = tris.flatten ∧ (∀ t ∈ tris, TriShape t)
            ∧ out.length = 18 * tris.length) ∧
    load_obj [] = .ok [] := by
  constructor
  · intro lines out h
    unfold load_obj at h
    cases hr : runLines ⟨[], [], []⟩ lines with
    | error e => rw [hr] at h; simp [Except.map] at h
    | ok st2 =>
      rw [hr] at h
      simp only [Except.map, Except.ok.injEq] at h
      obtain ⟨tris, htr, hsh⟩ := runLines_shape lines ⟨[], [], []⟩ st2 hr
      have hout : out = tris.flatten := by
        rw [← h]
        simpa using htr
      exact ⟨tris, hout, hsh, by rw [hout, triShape_flatten_length tris hsh]⟩
  · rfl

/-- C9 witness: the single-triangle load instantiates the shape
decomposition. -/
theorem c9_output_shape_witness :
    load_obj ["v 0 0 0".data, "v 1 0 0".data, "v 0 1 0".data, "f 1 2 3".data]
      = .ok [0,0,0,0,0,0, 1,0,0,0,0,0, 0,1,0,0,0,0] ∧
    ∃ tris : List (List Rat),
      ([0,0,0,0,0,0, 1,0,0,0,0,0, 0,1,0,0,0,0] : List Rat) = tris.flatten
        ∧ (∀ t ∈ tris, TriShape t)
        ∧ ([0,0,0,0,0,0, 1,0,0,0,0,0, 0,1,0,0,0,0] : List Rat).length
            = 18 * tris.length :=
  ⟨by decide,
   c9_output_shape.1 ["v 0 0 0".data, "v 1 0 0".data, "v 0 1 0".data, "f 1 2 3".data]
     [0,0,0,0,0,0, 1,0,0,0,0,0, 0,1,0,0,0,0] (by decide)⟩
